import Mathlib

/-!
Verification of the PDT repository's batching/data-loading pipeline
(`experiments/chordmixer/dataloader.py`) and generic trainer
(`experiments/trainers/chordmixer.py`), via a shallow embedding of the
Python code into Lean.

Modelling conventions:
* A pandas DataFrame row becomes a `Record` (columns `sequence`, `label`,
  `len`, `bin`); after `complete_batch` adds the `batch_id` column, rows
  become `BRecord`.
* `df.groupby(col)` (with pandas' default `sort=True`) is modelled as: take
  the distinct key values in sorted order, and for each key the sublist of
  rows with that key, in original row order.  The source encodes a batch
  identifier as the string `f'I_binG'`; the model uses the pair `(I, G)`,
  an injective encoding of the same composite key.
* `pd.concat` of an empty list of frames raises `ValueError` in pandas;
  this is modelled by returning `none`.  Likewise `l % batch_size` with
  `batch_size = 0` raises `ZeroDivisionError`, modelled as `none`.
* `DataFrame.iloc[index, :]` accepts Python-style negative positions:
  positions `-n .. n-1` are valid for a frame of `n` rows, anything else
  raises `IndexError` (modelled as `none`).
* Torch tensor constructors (`torch.tensor`, `torch.from_numpy`, `.to`)
  are content-preserving conversions and are modelled as the identity.
* Scalar floats (losses, correct counts) are idealized as rationals.
-/

/-- One row of the dataset table: columns `sequence`, `label`, `len`, `bin`. -/
structure Record where
  sequence : List Int
  label : Int
  len : Nat
  bin : Nat
deriving DecidableEq, Repr, Inhabited

/-- A row after `complete_batch` has added the `batch_id` column.
The source's string id `f'I_binG'` is modelled as the pair `(I, G)`. -/
structure BRecord extends Record where
  batch_id : Nat × Nat
deriving DecidableEq, Repr, Inhabited

/-- Insert an element into a list before the first element it is `le` to
(helper for the insertion sort used to model pandas' sorted group keys). -/
def insertLe {α : Type} (le : α → α → Bool) (a : α) : List α → List α
  | [] => [a]
  | b :: l => if le a b then a :: b :: l else b :: insertLe le a l

/-- Insertion sort; models the sorted key order of `df.groupby` (pandas
default `sort=True`).  Written as structural recursion so that concrete
instances evaluate inside the kernel. -/
def sortBy {α : Type} (le : α → α → Bool) : List α → List α
  | [] => []
  | a :: l => insertLe le a (sortBy le l)

/-- Python's `enumerate(xs, start)`. -/
def enumerate {α : Type} (start : Nat) : List α → List (Nat × α)
  | [] => []
  | a :: l => (start, a) :: enumerate (start + 1) l

/-- `[bin_df for _, bin_df in df.groupby('bin')]`: one group per distinct
`bin` value, keys in sorted order, rows of a group in original order. -/
def groupbyBin (df : List Record) : List (List Record) :=
  (sortBy (fun a b => a ≤ b) ((df.map (fun r => r.bin)).dedup)).map
    (fun b => df.filter (fun r => r.bin == b))

/-- Body of the `for gr_id, bin in enumerate(bins)` loop of
`complete_batch`: extend the group to a multiple of `batch_size` by
duplicating its first row (`pd.concat([bin, pd.concat([bin.iloc[:1]] *
(batch_size - remainder))])`), then attach the `batch_id` column built by
`batch_ids.extend([f'I_bin{gr_id}'] * batch_size)` for `I` in
`range(integer)`.  The column assignment requires the id list and the
extended group to have equal length (pandas raises otherwise); the lengths
are provably equal here, so the truncating `zip` is exact. -/
def completeOneBin (batch_size gr_id : Nat) (bin : List Record) : List BRecord :=
  let l := bin.length
  let remainder := l % batch_size
  let integer := l / batch_size
  let bin2 := if remainder ≠ 0 then
      bin ++ (List.replicate (batch_size - remainder) (bin.take 1)).flatten
    else bin
  let integer2 := if remainder ≠ 0 then integer + 1 else integer
  let batch_ids :=
    ((List.range integer2).map (fun i => List.replicate batch_size (i, gr_id))).flatten
  (bin2.zip batch_ids).map (fun p => { toRecord := p.1, batch_id := p.2 })

/-- `complete_batch(df, batch_size)`.  Returns `none` where the Python
raises: `batch_size = 0` (`ZeroDivisionError` at `l % batch_size`) and an
empty frame (`pd.concat` of the empty list of completed bins raises
`ValueError`). -/
def complete_batch (df : List Record) (batch_size : Nat) : Option (List BRecord) :=
  if batch_size = 0 then none
  else
    let bins := groupbyBin df
    if bins.isEmpty then none
    else some (((enumerate 0 bins).map (fun p => completeOneBin batch_size p.1 p.2)).flatten)

/-- `[df_new for _, df_new in df.groupby('batch_id')]`: one group per
distinct batch identifier, in sorted key order, rows in original order. -/
def groupbyBatchId (df : List BRecord) : List (List BRecord) :=
  (sortBy (fun a b => a.1 < b.1 || (a.1 == b.1 && a.2 ≤ b.2))
      ((df.map (fun r => r.batch_id)).dedup)).map
    (fun k => df.filter (fun r => r.batch_id == k))

/-- `shuffle_batches(df)`.  The call `random.shuffle(batch_bins)` is
modelled by the caller-supplied reordering `pi`; the theorems assume only
that `pi` permutes the group list.  `pd.concat` of an empty group list
raises `ValueError`, modelled as `none`. -/
def shuffle_batches (pi : List (List BRecord) → List (List BRecord))
    (df : List BRecord) : Option (List BRecord) :=
  let batch_bins := pi (groupbyBatchId df)
  if batch_bins.isEmpty then none
  else some batch_bins.flatten

/-- `DatasetCreator.__init__`: with `var_len=True` the stored frame is
`shuffle_batches(complete_batch(df))` restricted to the columns
`['sequence', 'label', 'len', 'bin']`; otherwise the frame is stored
unchanged. -/
def datasetCreator_df (pi : List (List BRecord) → List (List BRecord))
    (df : List Record) (batch_size : Nat) (var_len : Bool) : Option (List Record) :=
  if var_len then do
    let completed ← complete_batch df batch_size
    let shuffled ← shuffle_batches pi completed
    pure (shuffled.map (fun r => r.toRecord))
  else some df

/-- Row selection `df.iloc[index, :]`: positions `0 .. n-1` directly,
Python-style negative positions `-n .. -1` address row `n + index`, and
anything else raises `IndexError` (modelled as `none`). -/
def ilocRow (df : List Record) (index : Int) : Option Record :=
  if 0 ≤ index then df[index.toNat]?
  else if -(df.length : Int) ≤ index then df[(index + df.length).toNat]?
  else none

/-- `DatasetCreator.__getitem__`: unpack the selected row into the tuple
`(X, Y, length, bin)`; `torch.from_numpy` / `torch.tensor` preserve the
content and are modelled as the identity. -/
def dunderGetitem (df : List Record) (index : Int) :
    Option (List Int × Int × Nat × Nat) :=
  (ilocRow df index).map (fun r => (r.sequence, r.label, r.len, r.bin))

/-- `DatasetCreator.__len__`. -/
def dunderLen (df : List Record) : Nat := df.length

/-- `concater_collate(batch)`: unzip the batch, concatenate the sequences
(`torch.cat(xx, 0)`), stack the labels, and return lengths and bins as
lists.  Unpacking `zip(*batch)` of an empty batch raises `ValueError`,
modelled as `none`. -/
def concater_collate (batch : List (List Int × Int × Nat × Nat)) :
    Option (List Int × List Int × List Nat × List Nat) :=
  if batch.isEmpty then none
  else some ((batch.map (fun p => p.1)).flatten,
             batch.map (fun p => p.2.1),
             batch.map (fun p => p.2.2.1),
             batch.map (fun p => p.2.2.2))

/-! ### Generic list machinery -/

theorem insertLe_perm {α : Type} (le : α → α → Bool) (a : α) (l : List α) :
    (insertLe le a l).Perm (a :: l) := by
  induction l with
  | nil => simp [insertLe]
  | cons b t ih =>
    simp only [insertLe]
    by_cases h : le a b
    · simp [h]
    · simp only [h, if_neg, Bool.false_eq_true, not_false_iff]
      exact (ih.cons b).trans (List.Perm.swap a b t)

theorem sortBy_perm {α : Type} (le : α → α → Bool) (l : List α) :
    (sortBy le l).Perm l := by
  induction l with
  | nil => simp [sortBy]
  | cons a t ih =>
    exact (insertLe_perm le a (sortBy le t)).trans (ih.cons a)

theorem enumerate_map {α β : Type} (f : α → β) :
    ∀ (g : Nat) (l : List α),
      enumerate g (l.map f) = (enumerate g l).map (fun p => (p.1, f p.2)) := by
  intro g l
  induction l generalizing g with
  | nil => rfl
  | cons a t ih => simp [enumerate, ih]

theorem flatten_replicate_singleton {α : Type} (m : Nat) (a : α) :
    (List.replicate m [a]).flatten = List.replicate m a := by
  induction m with
  | zero => rfl
  | succ n ih => simp [List.replicate_succ, ih]

/-- Sum over a range of an indicator supported at one point. -/
theorem sum_range_ite (m i0 N : Nat) :
    ((List.range m).map (fun i => if i = i0 then N else 0)).sum
      = if i0 < m then N else 0 := by
  induction m with
  | zero => simp
  | succ n ih =>
    rw [List.range_succ]
    simp only [List.map_append, List.sum_append, ih, List.map_cons, List.map_nil,
      List.sum_cons, List.sum_nil]
    by_cases h1 : i0 < n
    · have h2 : ¬ n = i0 := by omega
      have h3 : i0 < n + 1 := by omega
      simp [h1, h2, h3]
    · by_cases h2 : n = i0
      · have h3 : i0 < n + 1 := by omega
        simp [h1, h2, h3]
      · have h3 : ¬ i0 < n + 1 := by omega
        simp [h1, h2, h3]

/-- Grouping a list by a complete, duplicate-free list of key values and
flattening the groups permutes the list. -/
theorem flatten_filter_perm {α κ : Type} [BEq κ] [LawfulBEq κ] (key : α → κ) :
    ∀ (ks : List κ) (df : List α), ks.Nodup → (∀ a ∈ df, key a ∈ ks) →
      ((ks.map (fun k => df.filter (fun a => key a == k))).flatten).Perm df := by
  intro ks
  induction ks with
  | nil =>
    intro df _ hcov
    have hdf : df = [] := by
      cases df with
      | nil => rfl
      | cons a t => exact absurd (hcov a (by simp)) (by simp)
    simp [hdf]
  | cons k ks ih =>
    intro df hnd hcov
    have hk : k ∉ ks := by simp at hnd; exact hnd.1
    have hnd' : ks.Nodup := by simp at hnd; exact hnd.2
    simp only [List.map_cons, List.flatten_cons]
    have hmapeq : ks.map (fun k' => df.filter (fun a => key a == k'))
        = ks.map (fun k' => (df.filter (fun a => !(key a == k))).filter
            (fun a => key a == k')) := by
      apply List.map_congr_left
      intro k' hk'
      have hne : k' ≠ k := by rintro rfl; exact hk hk'
      rw [List.filter_filter]
      apply List.filter_congr
      intro a _
      by_cases h : key a = k'
      · have h2 : (key a == k) = false := by
          rw [beq_eq_false_iff_ne, h]
          exact hne
        simp [h, h2]
        exact hne
      · have h2 : (key a == k') = false := by
          rw [beq_eq_false_iff_ne]
          exact h
        simp [h2]
    have hcov' : ∀ a ∈ df.filter (fun a => !(key a == k)), key a ∈ ks := by
      intro a ha
      rw [List.mem_filter] at ha
      have := hcov a ha.1
      simp at ha
      simp at this
      rcases this with h | h
      · exact absurd h ha.2
      · exact h
    have hperm := ih (df.filter (fun a => !(key a == k))) hnd' hcov'
    rw [hmapeq]
    exact (hperm.append_left (df.filter (fun a => key a == k))).trans
      (List.filter_append_perm (fun a => key a == k) df)

/-! ### Structure of one completed bin -/

/-- The group extended to a multiple of `batch_size` (the value of the
`bin` variable after the `if remainder != 0` branch of `complete_batch`). -/
def binExt (batch_size : Nat) (bin : List Record) : List Record :=
  if bin.length % batch_size ≠ 0 then
    bin ++ (List.replicate (batch_size - bin.length % batch_size) (bin.take 1)).flatten
  else bin

/-- The number of batches cut from a group of `l` rows (the value of the
`integer` variable after the `if remainder != 0` branch). -/
def numBatches (batch_size l : Nat) : Nat :=
  if l % batch_size ≠ 0 then l / batch_size + 1 else l / batch_size

/-- The `batch_ids` list built for a group of `l` rows with group index
`gr_id`. -/
def binIds (batch_size gr_id l : Nat) : List (Nat × Nat) :=
  ((List.range (numBatches batch_size l)).map
    (fun i => List.replicate batch_size (i, gr_id))).flatten

theorem completeOneBin_eq (N g : Nat) (bin : List Record) :
    completeOneBin N g bin =
      ((binExt N bin).zip (binIds N g bin.length)).map
        (fun p => { toRecord := p.1, batch_id := p.2 }) := rfl

theorem length_flatten_replicate {α : Type} (m : Nat) (l : List α) :
    ((List.replicate m l).flatten).length = m * l.length := by
  induction m with
  | zero => simp
  | succ n ih =>
    rw [List.replicate_succ, List.flatten_cons, List.length_append, ih, Nat.succ_mul]
    omega

theorem binExt_length (N : Nat) (hN : 0 < N) (bin : List Record) :
    (binExt N bin).length = N * numBatches N bin.length := by
  have hmd := Nat.mod_add_div bin.length N
  have hlt : bin.length % N < N := Nat.mod_lt _ hN
  unfold binExt numBatches
  by_cases h : bin.length % N = 0
  · rw [if_neg (not_not_intro h), if_neg (not_not_intro h)]
    generalize hq : N * (bin.length / N) = Q at hmd ⊢
    omega
  · rw [if_pos h, if_pos h]
    have hbin0 : bin.length ≠ 0 := by
      intro h0
      rw [h0, Nat.zero_mod] at h
      exact h rfl
    have htake : (bin.take 1).length = 1 := by
      rw [List.length_take]
      omega
    rw [List.length_append, length_flatten_replicate, htake, Nat.mul_add, Nat.mul_one,
      Nat.mul_one]
    generalize hq : N * (bin.length / N) = Q at hmd ⊢
    omega

theorem binIds_length (N g l : Nat) :
    (binIds N g l).length = numBatches N l * N := by
  unfold binIds
  rw [List.length_flatten, List.map_map]
  have h1 : (List.length ∘ fun i => List.replicate N (i, g)) = fun _ : Nat => N := by
    funext i
    simp
  rw [h1]
  induction (numBatches N l) with
  | zero => simp
  | succ n ih =>
    rw [List.range_succ, List.map_append, List.sum_append, ih]
    simp [Nat.succ_mul]

theorem completeOneBin_map_toRecord (N g : Nat) (hN : 0 < N) (bin : List Record) :
    (completeOneBin N g bin).map (fun r => r.toRecord) = binExt N bin := by
  rw [completeOneBin_eq, List.map_map]
  have h1 : ((fun r : BRecord => r.toRecord) ∘
      fun p : Record × (Nat × Nat) => ({ toRecord := p.1, batch_id := p.2 } : BRecord))
      = Prod.fst := by
    funext p
    rfl
  rw [h1]
  apply List.map_fst_zip
  rw [binExt_length N hN bin, binIds_length]
  exact Nat.le_of_eq (Nat.mul_comm _ _)

theorem completeOneBin_map_bid (N g : Nat) (hN : 0 < N) (bin : List Record) :
    (completeOneBin N g bin).map (fun r => r.batch_id) = binIds N g bin.length := by
  rw [completeOneBin_eq, List.map_map]
  have h1 : ((fun r : BRecord => r.batch_id) ∘
      fun p : Record × (Nat × Nat) => ({ toRecord := p.1, batch_id := p.2 } : BRecord))
      = Prod.snd := by
    funext p
    rfl
  rw [h1]
  apply List.map_snd_zip
  rw [binExt_length N hN bin, binIds_length]
  exact Nat.le_of_eq (Nat.mul_comm _ _)

theorem completeOneBin_length (N g : Nat) (hN : 0 < N) (bin : List Record) :
    (completeOneBin N g bin).length = N * numBatches N bin.length := by
  have h1 : (completeOneBin N g bin).length
      = ((completeOneBin N g bin).map (fun r => r.toRecord)).length := by
    rw [List.length_map]
  rw [h1, completeOneBin_map_toRecord N g hN, binExt_length N hN]

theorem binExt_eq_append (N : Nat) (bin : List Record) (hbin : bin ≠ []) :
    binExt N bin
      = bin ++ List.replicate ((binExt N bin).length - bin.length) bin.headI := by
  unfold binExt
  by_cases h : bin.length % N = 0
  · rw [if_neg (not_not_intro h)]
    simp
  · rw [if_pos h]
    have htake : bin.take 1 = [bin.headI] := by
      cases bin with
      | nil => exact absurd rfl hbin
      | cons a t => rfl
    rw [htake, flatten_replicate_singleton, List.length_append, List.length_replicate,
      Nat.add_sub_cancel_left]

theorem mem_binExt {N : Nat} {bin : List Record} {r : Record}
    (h : r ∈ binExt N bin) : r ∈ bin := by
  unfold binExt at h
  by_cases hc : bin.length % N = 0
  · rwa [if_neg (not_not_intro hc)] at h
  · rw [if_pos hc] at h
    rcases List.mem_append.mp h with h1 | h1
    · exact h1
    · rcases List.mem_flatten.mp h1 with ⟨l, hl, hrl⟩
      rcases List.eq_of_mem_replicate hl with rfl
      exact List.take_subset 1 bin hrl

theorem mem_completeOneBin {N g : Nat} {bin : List Record} {rb : BRecord}
    (h : rb ∈ completeOneBin N g bin) : rb.toRecord ∈ bin := by
  rw [completeOneBin_eq] at h
  rcases List.mem_map.mp h with ⟨p, hp, rfl⟩
  exact mem_binExt (List.of_mem_zip hp).1

theorem mem_binIds {N g l : Nat} {s : Nat × Nat} (h : s ∈ binIds N g l) :
    s.2 = g ∧ s.1 < numBatches N l := by
  unfold binIds at h
  rcases List.mem_flatten.mp h with ⟨q, hq, hsq⟩
  rcases List.mem_map.mp hq with ⟨i, hi, rfl⟩
  rcases List.eq_of_mem_replicate hsq with rfl
  exact ⟨rfl, List.mem_range.mp hi⟩

theorem count_binIds (N g l : Nat) (i0 g0 : Nat) :
    List.count (i0, g0) (binIds N g l)
      = if g = g0 ∧ i0 < numBatches N l then N else 0 := by
  unfold binIds
  rw [List.count_flatten, List.map_map]
  by_cases hg : g = g0
  · subst hg
    have hmap : (List.count (i0, g) ∘ fun i => List.replicate N (i, g))
        = fun i => if i = i0 then N else 0 := by
      funext i
      simp only [Function.comp_apply, List.count_replicate]
      by_cases h : i = i0
      · subst h
        simp
      · have h2 : ((i, g) == (i0, g)) = false := by
          rw [beq_eq_false_iff_ne]
          intro hp
          exact h (congrArg Prod.fst hp)
        simp [h2, h]
    rw [hmap, sum_range_ite]
    simp
  · have hmap : (List.count (i0, g0) ∘ fun i => List.replicate N (i, g))
        = fun _ : Nat => 0 := by
      funext i
      simp only [Function.comp_apply, List.count_replicate]
      have h2 : ((i, g) == (i0, g0)) = false := by
        rw [beq_eq_false_iff_ne]
        intro hp
        exact hg (congrArg Prod.snd hp)
      simp [h2]
    rw [hmap]
    simp [hg]

/-! ### Shape of `complete_batch` -/

/-- The sorted distinct `bin` values used by `complete_batch`'s groupby. -/
def binKeys (df : List Record) : List Nat :=
  sortBy (fun a b => a ≤ b) ((df.map (fun r => r.bin)).dedup)

theorem groupbyBin_eq_keys (df : List Record) :
    groupbyBin df = (binKeys df).map (fun b => df.filter (fun r => r.bin == b)) := rfl

theorem binKeys_nodup (df : List Record) : (binKeys df).Nodup :=
  (sortBy_perm _ _).symm.nodup (List.nodup_dedup _)

theorem mem_binKeys {df : List Record} {b : Nat} :
    b ∈ binKeys df ↔ b ∈ df.map (fun r => r.bin) :=
  ((sortBy_perm _ _).mem_iff).trans (List.mem_dedup)

theorem groupbyBin_ne_nil {df : List Record} (hdf : df ≠ []) : groupbyBin df ≠ [] := by
  rw [groupbyBin_eq_keys]
  intro h
  rw [List.map_eq_nil_iff] at h
  have h2 : (df.map (fun r => r.bin)).dedup = [] := ((h ▸ sortBy_perm _ _ :
    ([] : List Nat).Perm _)).symm.eq_nil
  rw [List.dedup_eq_nil, List.map_eq_nil_iff] at h2
  exact hdf h2

theorem complete_batch_eq (df : List Record) (N : Nat) (hN : N ≠ 0) (hdf : df ≠ []) :
    complete_batch df N
      = some (((enumerate 0 (groupbyBin df)).map
          (fun p => completeOneBin N p.1 p.2)).flatten) := by
  unfold complete_batch
  rw [if_neg hN]
  have h1 : (groupbyBin df).isEmpty = false := by
    rw [List.isEmpty_eq_false]
    exact groupbyBin_ne_nil hdf
  simp [h1]

theorem mem_enumerate_snd {α : Type} {p : Nat × α} :
    ∀ {g : Nat} {l : List α}, p ∈ enumerate g l → p.2 ∈ l := by
  intro g l
  induction l generalizing g with
  | nil => intro h; simp [enumerate] at h
  | cons a t ih =>
    intro h
    rcases List.mem_cons.mp h with h1 | h1
    · rw [h1]; exact List.mem_cons_self a t
    · exact List.mem_cons_of_mem a (ih h1)

/-- Filtering the completed collection by a `bin` value that occurs among
the keys yields exactly the completion of that one group. -/
theorem filter_enum_completeOneBin (N : Nat) (df : List Record) (b : Nat) :
    ∀ (ks : List Nat) (g0 : Nat), ks.Nodup → b ∈ ks →
      ∃ g, (((enumerate g0 (ks.map (fun k => df.filter (fun r => r.bin == k)))).map
            (fun p => completeOneBin N p.1 p.2)).flatten).filter (fun rb => rb.bin == b)
          = completeOneBin N g (df.filter (fun r => r.bin == b)) := by
  intro ks
  induction ks with
  | nil =>
    intro g0 _ hb
    exact absurd hb (by simp)
  | cons k ks ih =>
    intro g0 hnd hb
    simp only [List.map_cons, enumerate, List.flatten_cons, List.filter_append]
    by_cases hkb : k = b
    · subst hkb
      have h1 : (completeOneBin N g0 (df.filter (fun r => r.bin == k))).filter
          (fun rb => rb.bin == k)
          = completeOneBin N g0 (df.filter (fun r => r.bin == k)) := by
        rw [List.filter_eq_self]
        intro rb hrb
        have h2 := mem_completeOneBin hrb
        rw [List.mem_filter] at h2
        exact h2.2
      have hbk : k ∉ ks := (List.nodup_cons.mp hnd).1
      have h2 : ((((enumerate (g0 + 1)
            (ks.map (fun k' => df.filter (fun r => r.bin == k')))).map
          (fun p => completeOneBin N p.1 p.2)).flatten).filter
            (fun rb => rb.bin == k)) = [] := by
        rw [List.filter_eq_nil_iff]
        intro rb hrb hcon
        rcases List.mem_flatten.mp hrb with ⟨piece, hpiece, hrbp⟩
        rcases List.mem_map.mp hpiece with ⟨p, hp, rfl⟩
        have hp2 := mem_enumerate_snd hp
        rcases List.mem_map.mp hp2 with ⟨k', hk', hpk⟩
        rw [← hpk] at hrbp
        have h3 := mem_completeOneBin hrbp
        rw [List.mem_filter] at h3
        have e1 : rb.toRecord.bin = k' := by simpa using h3.2
        have e2 : rb.toRecord.bin = k := by simpa using hcon
        have e3 : k' = k := e1.symm.trans e2
        exact hbk (e3 ▸ hk')
      rw [h1, h2]
      exact ⟨g0, by simp⟩
    · have h1 : (completeOneBin N g0 (df.filter (fun r => r.bin == k))).filter
          (fun rb => rb.bin == b) = [] := by
        rw [List.filter_eq_nil_iff]
        intro rb hrb hcon
        have h3 := mem_completeOneBin hrb
        rw [List.mem_filter] at h3
        have e1 : rb.toRecord.bin = k := by simpa using h3.2
        have e2 : rb.toRecord.bin = b := by simpa using hcon
        exact hkb (e1.symm.trans e2)
      have hb' : b ∈ ks := by
        rcases List.mem_cons.mp hb with h | h
        · exact absurd h.symm hkb
        · exact h
      rcases ih (g0 + 1) (List.nodup_cons.mp hnd).2 hb' with ⟨g, hg⟩
      refine ⟨g, ?_⟩
      rw [h1, hg]
      simp

/-! ### Counting batch identifiers -/

theorem length_filter_eq_count_map {α β : Type} [BEq β] [LawfulBEq β] (f : α → β)
    (l : List α) (b : β) :
    (l.filter (fun a => f a == b)).length = List.count b (l.map f) := by
  induction l with
  | nil => rfl
  | cons a t ih =>
    by_cases h : f a = b
    · simp [List.filter_cons, List.count_cons, h, ih]
    · simp [List.filter_cons, List.count_cons, h, ih]

/-- Counting is independent of which lawful boolean-equality instance is
used. -/
theorem count_eq_decEq_count {α : Type} [DecidableEq α] [BEq α] [LawfulBEq α]
    (a : α) (l : List α) :
    List.count a l = @List.count α instBEqOfDecidableEq a l := by
  induction l with
  | nil => rfl
  | cons x t ih =>
    simp only [List.count_cons, ih]
    congr 1
    by_cases h : x = a
    · simp [h]
    · simp [h]

theorem map_bid_flatten_enum (N : Nat) (hN : 0 < N) (bins : List (List Record)) :
    ∀ g0 : Nat,
      (((enumerate g0 bins).map (fun p => completeOneBin N p.1 p.2)).flatten).map
          (fun rb => rb.batch_id)
        = ((enumerate g0 (bins.map List.length)).map
            (fun p => binIds N p.1 p.2)).flatten := by
  induction bins with
  | nil => intro g0; rfl
  | cons bin bins ih =>
    intro g0
    simp only [enumerate, List.map_cons, List.flatten_cons, List.map_append]
    rw [completeOneBin_map_bid N g0 hN bin, ih (g0 + 1)]

theorem mem_binIds_flatten_ge (N : Nat) :
    ∀ (ls : List Nat) (g0 : Nat) (s : Nat × Nat),
      s ∈ ((enumerate g0 ls).map (fun p => binIds N p.1 p.2)).flatten → g0 ≤ s.2 := by
  intro ls
  induction ls with
  | nil => intro g0 s h; simp [enumerate] at h
  | cons l ls ih =>
    intro g0 s hs
    simp only [enumerate, List.map_cons, List.flatten_cons] at hs
    rcases List.mem_append.mp hs with h | h
    · exact Nat.le_of_eq (mem_binIds h).1.symm
    · exact Nat.le_of_succ_le (ih (g0 + 1) s h)

theorem count_binIds_flatten_lt (N : Nat) :
    ∀ (ls : List Nat) (g0 i0 g' : Nat), g' < g0 →
      List.count (i0, g')
        (((enumerate g0 ls).map (fun p => binIds N p.1 p.2)).flatten) = 0 := by
  intro ls
  induction ls with
  | nil => intro g0 i0 g' _; rfl
  | cons l ls ih =>
    intro g0 i0 g' hlt
    simp only [enumerate, List.map_cons, List.flatten_cons, List.count_append]
    rw [count_binIds, ih (g0 + 1) i0 g' (by omega)]
    have h : ¬ (g0 = g' ∧ i0 < numBatches N l) := by
      intro hc
      omega
    simp [h]

theorem count_binIds_flatten_mem (N : Nat) :
    ∀ (ls : List Nat) (g0 : Nat) (s : Nat × Nat),
      s ∈ ((enumerate g0 ls).map (fun p => binIds N p.1 p.2)).flatten →
      List.count s (((enumerate g0 ls).map (fun p => binIds N p.1 p.2)).flatten) = N := by
  intro ls
  induction ls with
  | nil => intro g0 s h; simp [enumerate] at h
  | cons l ls ih =>
    intro g0 s hs
    obtain ⟨i, g'⟩ := s
    simp only [enumerate, List.map_cons, List.flatten_cons] at hs ⊢
    rw [List.count_append]
    rcases List.mem_append.mp hs with h | h
    · obtain ⟨h2, h1⟩ := mem_binIds h
      rw [count_binIds, count_binIds_flatten_lt N ls (g0 + 1) i g' (by omega)]
      have hcond : g0 = g' ∧ i < numBatches N l := ⟨h2.symm, h1⟩
      simp [hcond]
    · have hge : g0 + 1 ≤ g' := mem_binIds_flatten_ge N ls (g0 + 1) (i, g') h
      rw [count_binIds, ih (g0 + 1) (i, g') h]
      have hcond : ¬ (g0 = g' ∧ i < numBatches N l) := by
        intro hc
        omega
      simp [hcond]

theorem binExt_length_ge (N : Nat) (bin : List Record) :
    bin.length ≤ (binExt N bin).length := by
  unfold binExt
  by_cases h : bin.length % N = 0
  · rw [if_neg (not_not_intro h)]
  · rw [if_pos h, List.length_append]
    omega

/-- A single bin of 10 records (all sharing `bin = 5`), for the concrete
instance of the spec: batch_size 4 over a 10-record bin. -/
def sampleBin10 : List Record :=
  (List.range 10).map (fun i => ⟨[(i : Int)], (i : Int), 1, 5⟩)

/-- The completed form of `sampleBin10` at batch size 4. -/
def sampleOut10 : List BRecord := (complete_batch sampleBin10 4).getD []

/-- Claim C1: for every non-empty input collection and every batch_size
`N > 0`, `complete_batch` succeeds and, for each bin value `b`, the output
bin has size divisible by `N`, at least its original size, and equals the
original bin followed by duplicates of the bin's first record; in
particular, for batch_size 4 and a bin of 10 records, the output bin has
12 records (2 duplicates of record 0) forming exactly 3 batch
identifiers. -/
theorem C1_bin_completion (df : List Record) (N : Nat) (hdf : df ≠ []) (hN : 0 < N) :
    (∃ out, complete_batch df N = some out ∧
      ∀ b ∈ df.map (fun r => r.bin),
        (out.filter (fun rb => rb.bin == b)).length % N = 0 ∧
        (df.filter (fun r => r.bin == b)).length
          ≤ (out.filter (fun rb => rb.bin == b)).length ∧
        (out.filter (fun rb => rb.bin == b)).map (fun rb => rb.toRecord)
          = df.filter (fun r => r.bin == b)
            ++ List.replicate ((out.filter (fun rb => rb.bin == b)).length
                - (df.filter (fun r => r.bin == b)).length)
              (df.filter (fun r => r.bin == b)).headI) ∧
    ((complete_batch sampleBin10 4).isSome = true ∧ sampleOut10.length = 12 ∧
      ((sampleOut10.map (fun rb => rb.batch_id)).dedup).length = 3 ∧
      sampleOut10.map (fun rb => rb.toRecord)
        = sampleBin10 ++ List.replicate 2 sampleBin10.headI) := by
  constructor
  · refine ⟨_, complete_batch_eq df N (by omega) hdf, ?_⟩
    intro b hb
    have hbk : b ∈ binKeys df := mem_binKeys.mpr hb
    rw [groupbyBin_eq_keys]
    obtain ⟨g, hg⟩ := filter_enum_completeOneBin N df b (binKeys df) 0
      (binKeys_nodup df) hbk
    rw [hg]
    have hBne : df.filter (fun r => r.bin == b) ≠ [] := by
      rcases List.mem_map.mp hb with ⟨r, hr, hrb⟩
      intro hnil
      have hmem : r ∈ df.filter (fun r => r.bin == b) :=
        List.mem_filter.mpr ⟨hr, by simp [hrb]⟩
      rw [hnil] at hmem
      exact (List.not_mem_nil r) hmem
    have hlen := completeOneBin_length N g hN (df.filter (fun r => r.bin == b))
    have hmap := completeOneBin_map_toRecord N g hN (df.filter (fun r => r.bin == b))
    have hext := binExt_eq_append N (df.filter (fun r => r.bin == b)) hBne
    have hblen := binExt_length N hN (df.filter (fun r => r.bin == b))
    refine ⟨?_, ?_, ?_⟩
    · rw [hlen]
      exact Nat.mul_mod_right _ _
    · rw [hlen, ← hblen]
      exact binExt_length_ge N _
    · rw [hmap, hlen, ← hblen]
      exact hext
  · exact ⟨by decide, by decide, by decide, by decide⟩

/-- Claim C3: after completion with batch_size `N > 0`, every batch
identifier occurring in the output is carried by exactly `N` records, and
summing the group sizes over the distinct batch identifiers accounts for
every record exactly once. -/
theorem C3_batch_id_invariant (df : List Record) (N : Nat) (out : List BRecord)
    (hN : 0 < N) (h : complete_batch df N = some out) :
    (∀ s ∈ out.map (fun rb => rb.batch_id),
      (out.filter (fun rb => rb.batch_id == s)).length = N) ∧
    ((out.map (fun rb => rb.batch_id)).dedup.map
        (fun s => (out.filter (fun rb => rb.batch_id == s)).length)).sum
      = out.length := by
  have hN0 : N ≠ 0 := by omega
  have hdf : df ≠ [] := by
    intro hnil
    rw [hnil] at h
    unfold complete_batch at h
    rw [if_neg hN0] at h
    simp [groupbyBin, sortBy] at h
  have hout : out = ((enumerate 0 (groupbyBin df)).map
      (fun p => completeOneBin N p.1 p.2)).flatten := by
    have h2 := complete_batch_eq df N hN0 hdf
    rw [h2] at h
    injection h with h3
    exact h3.symm
  have hmapbid : out.map (fun rb => rb.batch_id)
      = ((enumerate 0 ((groupbyBin df).map List.length)).map
          (fun p => binIds N p.1 p.2)).flatten := by
    rw [hout]
    exact map_bid_flatten_enum N hN (groupbyBin df) 0
  constructor
  · intro s hs
    rw [length_filter_eq_count_map (fun rb => rb.batch_id) out s, hmapbid]
    rw [hmapbid] at hs
    exact count_binIds_flatten_mem N _ 0 s hs
  · have h1 : ((out.map (fun rb => rb.batch_id)).dedup.map
        (fun s => (out.filter (fun rb => rb.batch_id == s)).length))
        = ((out.map (fun rb => rb.batch_id)).dedup.map
            (fun s => List.count s (out.map (fun rb => rb.batch_id)))) := by
      apply List.map_congr_left
      intro s _
      exact length_filter_eq_count_map _ out s
    rw [h1]
    have h2 : ((out.map (fun rb => rb.batch_id)).dedup.map
        (fun s => List.count s (out.map (fun rb => rb.batch_id))))
        = ((out.map (fun rb => rb.batch_id)).dedup.map
            (fun s => @List.count (Nat × Nat) instBEqOfDecidableEq s
              (out.map (fun rb => rb.batch_id)))) := by
      apply List.map_congr_left
      intro s _
      exact count_eq_decEq_count s _
    rw [h2]
    have h3 : ((out.map (fun rb => rb.batch_id)).dedup.map
        (fun s => @List.count (Nat × Nat) instBEqOfDecidableEq s
          (out.map (fun rb => rb.batch_id)))).sum
        = (out.map (fun rb => rb.batch_id)).length :=
      List.sum_map_count_dedup_eq_length _
    rw [h3, List.length_map]

/-- Claim C7 counterexample: on the empty record collection with
batch_size 1, `complete_batch` does not yield an empty result — pandas'
`pd.concat` over the empty list of completed bins raises `ValueError`,
so the call fails. -/
theorem C7_counterexample : ¬ (complete_batch ([] : List Record) 1 = some []) := by
  decide

/-- Claim C7 (amended): on the empty record collection, `complete_batch`
fails for every batch_size (it raises rather than returning an empty
result). -/
theorem C7_empty_fails (N : Nat) : complete_batch ([] : List Record) N = none := by
  unfold complete_batch
  by_cases h : N = 0
  · rw [if_pos h]
  · rw [if_neg h]
    simp [groupbyBin, sortBy]

theorem C1_witness : (complete_batch sampleBin10 4).isSome = true ∧
    sampleOut10.length = 12 ∧
    ((sampleOut10.map (fun rb => rb.batch_id)).dedup).length = 3 ∧
    sampleOut10.map (fun rb => rb.toRecord)
      = sampleBin10 ++ List.replicate 2 sampleBin10.headI :=
  (C1_bin_completion sampleBin10 4 (by decide) (by decide)).2

theorem C3_witness : (∀ s ∈ sampleOut10.map (fun rb => rb.batch_id),
      (sampleOut10.filter (fun rb => rb.batch_id == s)).length = 4) ∧
    ((sampleOut10.map (fun rb => rb.batch_id)).dedup.map
        (fun s => (sampleOut10.filter (fun rb => rb.batch_id == s)).length)).sum
      = sampleOut10.length :=
  C3_batch_id_invariant sampleBin10 4 sampleOut10 (by decide) (by decide)

/-! ### Shape of `shuffle_batches` -/

/-- The sorted distinct batch identifiers used by `shuffle_batches`'s
groupby. -/
def batchKeys (df : List BRecord) : List (Nat × Nat) :=
  sortBy (fun a b => a.1 < b.1 || (a.1 == b.1 && a.2 ≤ b.2))
    ((df.map (fun r => r.batch_id)).dedup)

theorem groupbyBatchId_eq_keys (df : List BRecord) :
    groupbyBatchId df
      = (batchKeys df).map (fun k => df.filter (fun r => r.batch_id == k)) := rfl

theorem batchKeys_nodup (df : List BRecord) : (batchKeys df).Nodup :=
  (sortBy_perm _ _).symm.nodup (List.nodup_dedup _)

theorem mem_batchKeys {df : List BRecord} {k : Nat × Nat} :
    k ∈ batchKeys df ↔ k ∈ df.map (fun r => r.batch_id) :=
  ((sortBy_perm _ _).mem_iff).trans (List.mem_dedup)

theorem groupbyBatchId_flatten_perm (df : List BRecord) :
    (groupbyBatchId df).flatten.Perm df := by
  rw [groupbyBatchId_eq_keys]
  exact flatten_filter_perm (fun r => r.batch_id) (batchKeys df) df
    (batchKeys_nodup df) (fun r hr => mem_batchKeys.mpr (List.mem_map_of_mem _ hr))

theorem groupbyBatchId_ne_nil {df : List BRecord} (hdf : df ≠ []) :
    groupbyBatchId df ≠ [] := by
  rw [groupbyBatchId_eq_keys]
  intro h
  rw [List.map_eq_nil_iff] at h
  have h2 : (df.map (fun r => r.batch_id)).dedup = [] := ((h ▸ sortBy_perm _ _ :
    ([] : List (Nat × Nat)).Perm _)).symm.eq_nil
  rw [List.dedup_eq_nil, List.map_eq_nil_iff] at h2
  exact hdf h2

/-- A flattening of lists each of which is either `X` or empty is a
flattening of copies of `X`. -/
theorem flatten_all_nil_or {α : Type} (X : List α) :
    ∀ ls : List (List α), (∀ l ∈ ls, l = X ∨ l = []) →
      ∃ k, ls.flatten = (List.replicate k X).flatten := by
  intro ls
  induction ls with
  | nil => exact fun _ => ⟨0, rfl⟩
  | cons a t ih =>
    intro hall
    obtain ⟨k, hk⟩ := ih (fun l hl => hall l (List.mem_cons_of_mem a hl))
    rcases hall a (List.mem_cons_self a t) with rfl | rfl
    · exact ⟨k + 1, by rw [List.flatten_cons, hk, List.replicate_succ, List.flatten_cons]⟩
    · exact ⟨k, by rw [List.flatten_cons, hk, List.nil_append]⟩

/-- Claim C2 counterexample: on the empty record collection (which
trivially carries a `batch_id` field), `shuffle_batches` does not return
the records at all — pandas' `pd.concat` over the empty list of groups
raises `ValueError` — so it is not a bijection on records there. -/
theorem C2_counterexample : shuffle_batches id ([] : List BRecord) = none := by
  decide

/-- Claim C2 (amended): for every non-empty record collection carrying a
`batch_id` field and every reordering of the batch groups, `shuffle_batches`
succeeds, the output multiset of records equals the input multiset, and
within any batch identifier the record order is unchanged (only the order
of batch groups changes). -/
theorem C2_shuffle_bijection (df : List BRecord)
    (pi : List (List BRecord) → List (List BRecord))
    (hpi : (pi (groupbyBatchId df)).Perm (groupbyBatchId df)) (hdf : df ≠ []) :
    ∃ out, shuffle_batches pi df = some out ∧ out.Perm df ∧
      ∀ s, out.filter (fun r => r.batch_id == s)
        = df.filter (fun r => r.batch_id == s) := by
  have hne : pi (groupbyBatchId df) ≠ [] := by
    intro h
    exact groupbyBatchId_ne_nil hdf (h ▸ hpi).symm.eq_nil
  have hsome : shuffle_batches pi df = some (pi (groupbyBatchId df)).flatten := by
    unfold shuffle_batches
    have h1 : (pi (groupbyBatchId df)).isEmpty = false := by
      rw [List.isEmpty_eq_false]
      exact hne
    simp [h1]
  have hperm : (pi (groupbyBatchId df)).flatten.Perm df :=
    (hpi.flatten).trans (groupbyBatchId_flatten_perm df)
  refine ⟨(pi (groupbyBatchId df)).flatten, hsome, hperm, ?_⟩
  intro s
  rw [List.filter_flatten]
  have hall : ∀ l ∈ (pi (groupbyBatchId df)).map
      (List.filter (fun r => r.batch_id == s)),
      l = df.filter (fun r => r.batch_id == s) ∨ l = [] := by
    intro l hl
    rcases List.mem_map.mp hl with ⟨grp, hgrp, rfl⟩
    have hgrp2 : grp ∈ groupbyBatchId df := hpi.mem_iff.mp hgrp
    rw [groupbyBatchId_eq_keys] at hgrp2
    rcases List.mem_map.mp hgrp2 with ⟨k, _, rfl⟩
    by_cases hks : k = s
    · subst hks
      left
      rw [List.filter_filter]
      apply List.filter_congr
      intro r _
      exact Bool.and_self _
    · right
      rw [List.filter_eq_nil_iff]
      intro r hr
      rw [List.mem_filter] at hr
      have e1 : r.batch_id = k := by simpa using hr.2
      intro hcon
      have e2 : r.batch_id = s := by simpa using hcon
      exact hks (e1.symm.trans e2)
  obtain ⟨k, hk⟩ := flatten_all_nil_or (df.filter (fun r => r.batch_id == s)) _ hall
  rw [hk]
  have hpermf : ((pi (groupbyBatchId df)).map
      (List.filter (fun r => r.batch_id == s))).flatten.Perm
      (df.filter (fun r => r.batch_id == s)) := by
    rw [← List.filter_flatten]
    exact hperm.filter _
  rw [hk] at hpermf
  by_cases hGnil : df.filter (fun r => r.batch_id == s) = []
  · rw [hGnil] at hpermf ⊢
    exact hpermf.eq_nil
  · have hlen := hpermf.length_eq
    rw [length_flatten_replicate] at hlen
    have hGpos : 0 < (df.filter (fun r => r.batch_id == s)).length :=
      List.length_pos.mpr hGnil
    have hk1 : k = 1 := by
      have h2 : k * (df.filter (fun r => r.batch_id == s)).length
          = 1 * (df.filter (fun r => r.batch_id == s)).length := by
        rw [one_mul]
        exact hlen
      exact Nat.eq_of_mul_eq_mul_right hGpos h2
    rw [hk1]
    simp

/-- Two batches worth of completed records, used to witness the shuffle
theorem with a genuine reordering (`List.reverse`). -/
def sampleShuffleDf : List BRecord :=
  [⟨⟨[0], 0, 1, 0⟩, (0, 0)⟩, ⟨⟨[1], 1, 1, 0⟩, (0, 0)⟩, ⟨⟨[2], 2, 1, 0⟩, (1, 0)⟩]

theorem C2_witness :
    ∃ out, shuffle_batches List.reverse sampleShuffleDf = some out ∧
      out.Perm sampleShuffleDf ∧
      ∀ s, out.filter (fun r => r.batch_id == s)
        = sampleShuffleDf.filter (fun r => r.batch_id == s) :=
  C2_shuffle_bijection sampleShuffleDf List.reverse (by decide) (by decide)

/-! ### Dataset adapter indexing -/

/-- A one-record table used in concrete indexing statements. -/
def sampleDs : List Record := [⟨[5], 2, 1, 0⟩]

/-- Claim C8 counterexample: on a one-record adapter (`var_len=False`
passes the table through unchanged), the index `-1` lies outside
`0 ≤ index < length()`, yet `__getitem__` succeeds and returns the last
row, because pandas `iloc` accepts negative positions; so out-of-range
access does not always fail as claimed. -/
theorem C8_counterexample :
    datasetCreator_df id sampleDs 1 false = some sampleDs ∧
    ¬ (0 ≤ (-1 : Int) ∧ (-1 : Int) < (sampleDs.length : Int)) ∧
    dunderGetitem sampleDs (-1) = some ([5], 2, 1, 0) := by
  refine ⟨rfl, by decide, by decide⟩

/-- Claim C8 (amended): for an adapter built by completion+shuffling,
`__getitem__` fails exactly on indices `≥ length()` or `< -length()`;
indices in `[0, length())` return the tuple of the record at that
position of the stored (completed and shuffled) table. -/
theorem C8_getitem (df : List Record) (batch_size : Nat)
    (pi : List (List BRecord) → List (List BRecord)) (out : List Record)
    (_h : datasetCreator_df pi df batch_size true = some out) (index : Int) :
    (((out.length : Int) ≤ index ∨ index < -(out.length : Int)) →
      dunderGetitem out index = none) ∧
    (0 ≤ index → index < (out.length : Int) →
      ∃ hnat : index.toNat < out.length,
        dunderGetitem out index
          = some ((out.get ⟨index.toNat, hnat⟩).sequence,
                  (out.get ⟨index.toNat, hnat⟩).label,
                  (out.get ⟨index.toNat, hnat⟩).len,
                  (out.get ⟨index.toNat, hnat⟩).bin)) := by
  constructor
  · intro hout
    unfold dunderGetitem ilocRow
    rcases hout with h1 | h1
    · have h0 : 0 ≤ index := by omega
      rw [if_pos h0]
      have hge : out.length ≤ index.toNat := by omega
      rw [List.getElem?_eq_none hge]
      rfl
    · have h0 : ¬ (0 ≤ index) := by omega
      have h2 : ¬ (-(out.length : Int) ≤ index) := by omega
      rw [if_neg h0, if_neg h2]
      rfl
  · intro h0 hlt
    have hnat : index.toNat < out.length := by omega
    refine ⟨hnat, ?_⟩
    unfold dunderGetitem ilocRow
    rw [if_pos h0, List.getElem?_eq_getElem hnat]
    rfl

theorem C8_witness :
    (((sampleDs.length : Int) ≤ 1 ∨ (1 : Int) < -(sampleDs.length : Int)) →
      dunderGetitem sampleDs 1 = none) ∧
    (0 ≤ (1 : Int) → (1 : Int) < (sampleDs.length : Int) →
      ∃ hnat : (1 : Int).toNat < sampleDs.length,
        dunderGetitem sampleDs 1
          = some ((sampleDs.get ⟨(1 : Int).toNat, hnat⟩).sequence,
                  (sampleDs.get ⟨(1 : Int).toNat, hnat⟩).label,
                  (sampleDs.get ⟨(1 : Int).toNat, hnat⟩).len,
                  (sampleDs.get ⟨(1 : Int).toNat, hnat⟩).bin)) :=
  C8_getitem sampleDs 1 id sampleDs (by decide) 1

/-- Claim C10: on a table of `n > 0` records, every index in `[-n, 0)`
succeeds and returns the record at position `n + index` (pandas `iloc`
accepts Python-style negative positions). -/
theorem C10_negative_index (df : List Record) (index : Int) (hn : 0 < df.length)
    (h1 : -(df.length : Int) ≤ index) (h2 : index < 0) :
    ∃ hnat : (index + df.length).toNat < df.length,
      dunderGetitem df index
        = some ((df.get ⟨(index + df.length).toNat, hnat⟩).sequence,
                (df.get ⟨(index + df.length).toNat, hnat⟩).label,
                (df.get ⟨(index + df.length).toNat, hnat⟩).len,
                (df.get ⟨(index + df.length).toNat, hnat⟩).bin) := by
  have hnat : (index + df.length).toNat < df.length := by omega
  refine ⟨hnat, ?_⟩
  unfold dunderGetitem ilocRow
  have h0 : ¬ (0 ≤ index) := by omega
  rw [if_neg h0, if_pos h1, List.getElem?_eq_getElem hnat]
  rfl

theorem C10_witness :
    ∃ hnat : ((-1 : Int) + sampleDs.length).toNat < sampleDs.length,
      dunderGetitem sampleDs (-1)
        = some ((sampleDs.get ⟨((-1 : Int) + sampleDs.length).toNat, hnat⟩).sequence,
                (sampleDs.get ⟨((-1 : Int) + sampleDs.length).toNat, hnat⟩).label,
                (sampleDs.get ⟨((-1 : Int) + sampleDs.length).toNat, hnat⟩).len,
                (sampleDs.get ⟨((-1 : Int) + sampleDs.length).toNat, hnat⟩).bin) :=
  C10_negative_index sampleDs (-1) (by decide) (by decide) (by decide)

/-! ### Sequence packing collator -/

/-- Claim C4: for every non-empty list of `(sequence, label, length, bin)`
tuples, `concater_collate` returns the in-order concatenation of the
sequences with no padding, the stacked labels, and the per-record length
and bin lists; the length and bin lists have one entry per record, and,
when each record's `len` field equals its sequence's actual length, the
packed sequence's size equals the sum of the length list. -/
theorem C4_collate (batch : List (List Int × Int × Nat × Nat)) (hne : batch ≠ [])
    (hlen : ∀ p ∈ batch, p.2.2.1 = p.1.length) :
    ∃ xx yy lengths bins,
      concater_collate batch = some (xx, yy, lengths, bins) ∧
      xx = (batch.map (fun p => p.1)).flatten ∧
      yy = batch.map (fun p => p.2.1) ∧
      lengths = batch.map (fun p => p.2.2.1) ∧
      bins = batch.map (fun p => p.2.2.2) ∧
      lengths.length = batch.length ∧
      bins.length = batch.length ∧
      xx.length = lengths.sum := by
  have hb : batch.isEmpty = false := by
    rw [List.isEmpty_eq_false]
    exact hne
  refine ⟨_, _, _, _, by simp [concater_collate, hb], rfl, rfl, rfl, rfl,
    List.length_map _ _, List.length_map _ _, ?_⟩
  rw [List.length_flatten, List.map_map]
  congr 1
  apply List.map_congr_left
  intro p hp
  exact (hlen p hp).symm

/-! ### Generic trainer (`experiments/trainers/chordmixer.py`) -/

/-- Tensors are abstracted as lists of idealized scalars; for the label
tensor `y`, `y.size(0)` is the list length. -/
abbrev Tensor := List ℚ

/-- The `model_input` dictionaries built by `calculate_y_hat`, one
constructor per task branch (the lower-case task tag strings of the
source). -/
inductive ModelInput where
  | taxonomy_classification (x : Tensor) (seq_len : Tensor)
  | variant_effect_prediction (x1 x2 tissue : Tensor)
  | plantdeepsea (x : Tensor)

/-- One batch as yielded by a loader: a 4-tuple whose components are
interpreted per task: `(x, y, seq_len, bin)` for TaxonomyClassification
and PlantDeepSEA, `(x1, x2, tissue, y)` for VariantEffectPrediction. -/
abbrev Batch4 := Tensor × Tensor × Tensor × Tensor

/-- The trainer's external collaborators: the model's forward pass, the
loss criterion, the correct-count and raw-prediction rules of
`calculate_predictions` (whose per-task internals no claim references),
and sklearn's `roc_auc_score`.  Device moves (`.to(device)`) and
`.float()` preserve content and are modelled as the identity. -/
structure TrainerEnv where
  task : String
  model : ModelInput → Tensor
  criterion : Tensor → Tensor → Rat
  correctOf : String → Tensor → Tensor → Rat
  predOf : String → Tensor → Tensor → Tensor
  auc_score : List Rat → List Rat → Rat

/-- `ChordMixerTrainer.calculate_y_hat`: dispatch on the task string; an
unrecognized task raises `ValueError("Task: ... not found.")`, modelled as
`Except.error`. -/
def calculate_y_hat (env : TrainerEnv) (data : Batch4) :
    Except String (Tensor × Tensor) :=
  if env.task = "TaxonomyClassification" then
    let (x, y, seq_len, _bin) := data
    Except.ok (y, env.model (ModelInput.taxonomy_classification x seq_len))
  else if env.task = "VariantEffectPrediction" then
    let (x1, x2, tissue, y) := data
    Except.ok (y, env.model (ModelInput.variant_effect_prediction x1 x2 tissue))
  else if env.task = "PlantDeepSEA" then
    let (x, y, _seq_len, _bin) := data
    Except.ok (y, env.model (ModelInput.plantdeepsea x))
  else
    Except.error ("Task: " ++ env.task ++ " not found.")

/-- The running accumulators of one pass: `running_loss`, `correct`,
`total`, and the prediction/target lists gathered for the final AUC. -/
structure EpochAcc where
  running_loss : Rat
  correct : Rat
  total : Nat
  preds : List Rat
  targets : List Rat

/-- The tuple each pass hands to `log_metrics` (the external metrics
sink) on completion. -/
structure LogCall where
  auc : Rat
  accuracy : Rat
  loss : Rat
  current_epoch_nr : Int
  metric_type : String

/-- The batch loop of `ChordMixerTrainer.train`.  The returned `Nat`
counts `optimizer.step()` calls — an observable side effect that survives
an exception.  The tqdm progress display is omitted. -/
def trainLoop (env : TrainerEnv) :
    List Batch4 → EpochAcc → Nat → Except String EpochAcc × Nat
  | [], acc, steps => (Except.ok acc, steps)
  | b :: loader, acc, steps =>
    match calculate_y_hat env b with
    | Except.error e => (Except.error e, steps)
    | Except.ok (y, y_hat) =>
      trainLoop env loader
        { running_loss := acc.running_loss + env.criterion y_hat y,
          correct := acc.correct + env.correctOf env.task y y_hat,
          total := acc.total + y.length,
          preds := acc.preds ++ env.predOf env.task y y_hat,
          targets := acc.targets ++ y } (steps + 1)

/-- `ChordMixerTrainer.train`: run the loop from zeroed accumulators and
log `(auc, correct/total, running_loss/num_batches, epoch, "train")`. -/
def train (env : TrainerEnv) (train_dataloader : List Batch4)
    (current_epoch_nr : Int) : Except String LogCall × Nat :=
  let num_batches := train_dataloader.length
  match trainLoop env train_dataloader ⟨0, 0, 0, [], []⟩ 0 with
  | (Except.ok acc, steps) =>
      (Except.ok { auc := env.auc_score acc.targets acc.preds,
                   accuracy := acc.correct / (acc.total : Rat),
                   loss := acc.running_loss / (num_batches : Rat),
                   current_epoch_nr := current_epoch_nr,
                   metric_type := "train" }, steps)
  | (Except.error e, steps) => (Except.error e, steps)

/-- The batch loop shared verbatim by `evaluate` and `test` (both run
under `torch.no_grad()` with no optimizer interaction; their loop bodies
in the source are token-for-token identical). -/
def evalLoop (env : TrainerEnv) : List Batch4 → EpochAcc → Except String EpochAcc
  | [], acc => Except.ok acc
  | b :: loader, acc =>
    match calculate_y_hat env b with
    | Except.error e => Except.error e
    | Except.ok (y, y_hat) =>
      evalLoop env loader
        { running_loss := acc.running_loss + env.criterion y_hat y,
          correct := acc.correct + env.correctOf env.task y y_hat,
          total := acc.total + y.length,
          preds := acc.preds ++ env.predOf env.task y y_hat,
          targets := acc.targets ++ y }

/-- `ChordMixerTrainer.evaluate`: logs with tag `"val"` and the current
epoch number. -/
def evaluate (env : TrainerEnv) (val_dataloader : List Batch4)
    (current_epoch_nr : Int) : Except String LogCall :=
  let num_batches := val_dataloader.length
  match evalLoop env val_dataloader ⟨0, 0, 0, [], []⟩ with
  | Except.ok acc =>
      Except.ok { auc := env.auc_score acc.targets acc.preds,
                  accuracy := acc.correct / (acc.total : Rat),
                  loss := acc.running_loss / (num_batches : Rat),
                  current_epoch_nr := current_epoch_nr,
                  metric_type := "val" }
  | Except.error e => Except.error e

/-- `ChordMixerTrainer.test`: logs with tag `"test"` and epoch number
`-1` (the test pass has no epoch concept). -/
def test (env : TrainerEnv) (test_dataloader : List Batch4) :
    Except String LogCall :=
  let num_batches := test_dataloader.length
  match evalLoop env test_dataloader ⟨0, 0, 0, [], []⟩ with
  | Except.ok acc =>
      Except.ok { auc := env.auc_score acc.targets acc.preds,
                  accuracy := acc.correct / (acc.total : Rat),
                  loss := acc.running_loss / (num_batches : Rat),
                  current_epoch_nr := -1,
                  metric_type := "test" }
  | Except.error e => Except.error e

/-- The per-batch contribution `(loss, correct, size)` computed by the
loop body, defined when the task dispatch succeeds. -/
def batchEval (env : TrainerEnv) (b : Batch4) : Option (Rat × Rat × Nat) :=
  match calculate_y_hat env b with
  | Except.error _ => none
  | Except.ok (y, y_hat) =>
      some (env.criterion y_hat y, env.correctOf env.task y y_hat, y.length)

/-- The task tag is one of the three recognized by the trainer. -/
abbrev taskKnown (env : TrainerEnv) : Prop :=
  env.task = "TaxonomyClassification" ∨ env.task = "VariantEffectPrediction" ∨
    env.task = "PlantDeepSEA"

/-- Accumulated per-batch losses of a pass. -/
def sumLoss (env : TrainerEnv) (loader : List Batch4) : Rat :=
  ((loader.filterMap (batchEval env)).map (fun t => t.1)).sum

/-- Accumulated correct-prediction count of a pass. -/
def sumCorrect (env : TrainerEnv) (loader : List Batch4) : Rat :=
  ((loader.filterMap (batchEval env)).map (fun t => t.2.1)).sum

/-- Accumulated example count of a pass. -/
def sumTotal (env : TrainerEnv) (loader : List Batch4) : Nat :=
  ((loader.filterMap (batchEval env)).map (fun t => t.2.2)).sum

theorem calculate_y_hat_ok (env : TrainerEnv) (b : Batch4) (hk : taskKnown env) :
    ∃ y y_hat, calculate_y_hat env b = Except.ok (y, y_hat) ∧
      batchEval env b
        = some (env.criterion y_hat y, env.correctOf env.task y y_hat, y.length) := by
  obtain ⟨x1, x2, x3, x4⟩ := b
  rcases hk with h | h | h
  · exact ⟨x2, env.model (ModelInput.taxonomy_classification x1 x3),
      by simp [calculate_y_hat, h], by simp [batchEval, calculate_y_hat, h]⟩
  · exact ⟨x4, env.model (ModelInput.variant_effect_prediction x1 x2 x3),
      by simp [calculate_y_hat, h], by simp [batchEval, calculate_y_hat, h]⟩
  · exact ⟨x2, env.model (ModelInput.plantdeepsea x1),
      by simp [calculate_y_hat, h], by simp [batchEval, calculate_y_hat, h]⟩

theorem calculate_y_hat_err (env : TrainerEnv) (b : Batch4) (hk : ¬ taskKnown env) :
    calculate_y_hat env b
      = Except.error ("Task: " ++ env.task ++ " not found.") := by
  obtain ⟨x1, x2, x3, x4⟩ := b
  simp only [taskKnown, not_or] at hk
  obtain ⟨h1, h2, h3⟩ := hk
  simp [calculate_y_hat, h1, h2, h3]

theorem sums_cons (env : TrainerEnv) (b : Batch4) (loader : List Batch4)
    {y y_hat : Tensor}
    (hbe : batchEval env b
      = some (env.criterion y_hat y, env.correctOf env.task y y_hat, y.length)) :
    sumLoss env (b :: loader) = env.criterion y_hat y + sumLoss env loader ∧
    sumCorrect env (b :: loader)
      = env.correctOf env.task y y_hat + sumCorrect env loader ∧
    sumTotal env (b :: loader) = y.length + sumTotal env loader := by
  unfold sumLoss sumCorrect sumTotal
  rw [List.filterMap_cons, hbe]
  simp

theorem trainLoop_ok (env : TrainerEnv) (hk : taskKnown env) :
    ∀ (loader : List Batch4) (acc : EpochAcc) (steps : Nat),
      ∃ pr tg, trainLoop env loader acc steps
        = (Except.ok ⟨acc.running_loss + sumLoss env loader,
            acc.correct + sumCorrect env loader,
            acc.total + sumTotal env loader, pr, tg⟩, steps + loader.length) := by
  intro loader
  induction loader with
  | nil =>
    intro acc steps
    refine ⟨acc.preds, acc.targets, ?_⟩
    simp [trainLoop, sumLoss, sumCorrect, sumTotal]
  | cons b loader ih =>
    intro acc steps
    obtain ⟨y, y_hat, hok, hbe⟩ := calculate_y_hat_ok env b hk
    obtain ⟨pr, tg, hrec⟩ := ih
      ⟨acc.running_loss + env.criterion y_hat y,
       acc.correct + env.correctOf env.task y y_hat,
       acc.total + y.length,
       acc.preds ++ env.predOf env.task y y_hat,
       acc.targets ++ y⟩ (steps + 1)
    obtain ⟨hsl, hsc, hst⟩ := sums_cons env b loader hbe
    refine ⟨pr, tg, ?_⟩
    have hstep : trainLoop env (b :: loader) acc steps
        = trainLoop env loader
          ⟨acc.running_loss + env.criterion y_hat y,
           acc.correct + env.correctOf env.task y y_hat,
           acc.total + y.length,
           acc.preds ++ env.predOf env.task y y_hat,
           acc.targets ++ y⟩ (steps + 1) := by
      rw [trainLoop, hok]
    rw [hstep, hrec, hsl, hsc, hst]
    have hlen2 : steps + 1 + loader.length = steps + (b :: loader).length := by
      rw [List.length_cons]
      omega
    rw [hlen2]
    simp only [add_assoc]

theorem evalLoop_ok (env : TrainerEnv) (hk : taskKnown env) :
    ∀ (loader : List Batch4) (acc : EpochAcc),
      ∃ pr tg, evalLoop env loader acc
        = Except.ok ⟨acc.running_loss + sumLoss env loader,
            acc.correct + sumCorrect env loader,
            acc.total + sumTotal env loader, pr, tg⟩ := by
  intro loader
  induction loader with
  | nil =>
    intro acc
    refine ⟨acc.preds, acc.targets, ?_⟩
    simp [evalLoop, sumLoss, sumCorrect, sumTotal]
  | cons b loader ih =>
    intro acc
    obtain ⟨y, y_hat, hok, hbe⟩ := calculate_y_hat_ok env b hk
    obtain ⟨pr, tg, hrec⟩ := ih
      ⟨acc.running_loss + env.criterion y_hat y,
       acc.correct + env.correctOf env.task y y_hat,
       acc.total + y.length,
       acc.preds ++ env.predOf env.task y y_hat,
       acc.targets ++ y⟩
    obtain ⟨hsl, hsc, hst⟩ := sums_cons env b loader hbe
    refine ⟨pr, tg, ?_⟩
    have hstep : evalLoop env (b :: loader) acc
        = evalLoop env loader
          ⟨acc.running_loss + env.criterion y_hat y,
           acc.correct + env.correctOf env.task y y_hat,
           acc.total + y.length,
           acc.preds ++ env.predOf env.task y y_hat,
           acc.targets ++ y⟩ := by
      rw [evalLoop, hok]
    rw [hstep, hrec, hsl, hsc, hst]
    simp only [add_assoc]

theorem train_ok (env : TrainerEnv) (hk : taskKnown env) (loader : List Batch4)
    (epoch : Int) :
    ∃ pr tg, train env loader epoch
      = (Except.ok ⟨env.auc_score tg pr,
          sumCorrect env loader / (sumTotal env loader : Rat),
          sumLoss env loader / (loader.length : Rat),
          epoch, "train"⟩, loader.length) := by
  obtain ⟨pr, tg, h⟩ := trainLoop_ok env hk loader ⟨0, 0, 0, [], []⟩ 0
  refine ⟨pr, tg, ?_⟩
  unfold train
  rw [h]
  simp

theorem evaluate_ok (env : TrainerEnv) (hk : taskKnown env) (loader : List Batch4)
    (epoch : Int) :
    ∃ pr tg, evaluate env loader epoch
      = Except.ok ⟨env.auc_score tg pr,
          sumCorrect env loader / (sumTotal env loader : Rat),
          sumLoss env loader / (loader.length : Rat),
          epoch, "val"⟩ := by
  obtain ⟨pr, tg, h⟩ := evalLoop_ok env hk loader ⟨0, 0, 0, [], []⟩
  refine ⟨pr, tg, ?_⟩
  unfold evaluate
  rw [h]
  simp

theorem test_ok (env : TrainerEnv) (hk : taskKnown env) (loader : List Batch4) :
    ∃ pr tg, test env loader
      = Except.ok ⟨env.auc_score tg pr,
          sumCorrect env loader / (sumTotal env loader : Rat),
          sumLoss env loader / (loader.length : Rat),
          -1, "test"⟩ := by
  obtain ⟨pr, tg, h⟩ := evalLoop_ok env hk loader ⟨0, 0, 0, [], []⟩
  refine ⟨pr, tg, ?_⟩
  unfold test
  rw [h]
  simp

/-- Claim C5: on every train, evaluate, or test pass over a non-empty
loader with a recognized task, the logged accuracy equals the accumulated
correct-prediction count divided by the accumulated example count, and the
logged loss equals the sum of per-batch losses divided by the number of
batches (not by the number of examples). -/
theorem C5_metrics (env : TrainerEnv) (hk : taskKnown env)
    (loader : List Batch4) (_hne : loader ≠ []) (epoch : Int) :
    (∃ entry steps, train env loader epoch = (Except.ok entry, steps) ∧
      entry.accuracy = sumCorrect env loader / (sumTotal env loader : Rat) ∧
      entry.loss = sumLoss env loader / (loader.length : Rat)) ∧
    (∃ entry, evaluate env loader epoch = Except.ok entry ∧
      entry.accuracy = sumCorrect env loader / (sumTotal env loader : Rat) ∧
      entry.loss = sumLoss env loader / (loader.length : Rat)) ∧
    (∃ entry, test env loader = Except.ok entry ∧
      entry.accuracy = sumCorrect env loader / (sumTotal env loader : Rat) ∧
      entry.loss = sumLoss env loader / (loader.length : Rat)) := by
  obtain ⟨pr, tg, h1⟩ := train_ok env hk loader epoch
  obtain ⟨pr2, tg2, h2⟩ := evaluate_ok env hk loader epoch
  obtain ⟨pr3, tg3, h3⟩ := test_ok env hk loader
  exact ⟨⟨_, _, h1, rfl, rfl⟩, ⟨_, h2, rfl, rfl⟩, ⟨_, h3, rfl, rfl⟩⟩

/-- Claim C6: with an unrecognized task tag, every pass raises the
configuration error `ValueError("Task: ... not found.")` on the first
batch, before any loss, metric accumulation, or optimizer step: nothing is
logged (no `LogCall` is produced) and the optimizer step count is 0. -/
theorem C6_unknown_task (env : TrainerEnv) (hk : ¬ taskKnown env)
    (loader : List Batch4) (hne : loader ≠ []) (epoch : Int) :
    train env loader epoch
      = (Except.error ("Task: " ++ env.task ++ " not found."), 0) ∧
    evaluate env loader epoch
      = Except.error ("Task: " ++ env.task ++ " not found.") ∧
    test env loader = Except.error ("Task: " ++ env.task ++ " not found.") := by
  obtain ⟨b, rest, rfl⟩ := List.exists_cons_of_ne_nil hne
  have herr := calculate_y_hat_err env b hk
  have ht : trainLoop env (b :: rest) ⟨0, 0, 0, [], []⟩ 0
      = (Except.error ("Task: " ++ env.task ++ " not found."), 0) := by
    rw [trainLoop, herr]
  have he : evalLoop env (b :: rest) ⟨0, 0, 0, [], []⟩
      = Except.error ("Task: " ++ env.task ++ " not found.") := by
    rw [evalLoop, herr]
  refine ⟨?_, ?_, ?_⟩
  · unfold train
    rw [ht]
  · unfold evaluate
    rw [he]
  · unfold test
    rw [he]

/-- Claim C9: a completed test pass emits its metrics with epoch number
`-1` and phase tag `"test"`; completed train and evaluate passes emit the
current epoch number (with tags `"train"` and `"val"`). -/
theorem C9_epoch_tags (env : TrainerEnv) (hk : taskKnown env)
    (loader : List Batch4) (epoch : Int) :
    (∃ entry steps, train env loader epoch = (Except.ok entry, steps) ∧
      entry.current_epoch_nr = epoch ∧ entry.metric_type = "train") ∧
    (∃ entry, evaluate env loader epoch = Except.ok entry ∧
      entry.current_epoch_nr = epoch ∧ entry.metric_type = "val") ∧
    (∃ entry, test env loader = Except.ok entry ∧
      entry.current_epoch_nr = -1 ∧ entry.metric_type = "test") := by
  obtain ⟨pr, tg, h1⟩ := train_ok env hk loader epoch
  obtain ⟨pr2, tg2, h2⟩ := evaluate_ok env hk loader epoch
  obtain ⟨pr3, tg3, h3⟩ := test_ok env hk loader
  exact ⟨⟨_, _, h1, rfl, rfl⟩, ⟨_, h2, rfl, rfl⟩, ⟨_, h3, rfl, rfl⟩⟩

/-- A concrete environment with a recognized task and trivial external
collaborators. -/
def sampleEnv : TrainerEnv :=
  ⟨"PlantDeepSEA", fun _ => [1], fun _ _ => 1, fun _ _ _ => 1,
    fun _ _ _ => [1], fun _ _ => 0⟩

/-- A concrete environment with an unrecognized task tag. -/
def badEnv : TrainerEnv :=
  ⟨"Foo", fun _ => [1], fun _ _ => 1, fun _ _ _ => 1,
    fun _ _ _ => [1], fun _ _ => 0⟩

/-- A one-batch loader. -/
def sampleLoader : List Batch4 := [([0], [1], [1], [0])]

theorem C5_witness :
    (∃ entry steps, train sampleEnv sampleLoader 0 = (Except.ok entry, steps) ∧
      entry.accuracy = sumCorrect sampleEnv sampleLoader
        / (sumTotal sampleEnv sampleLoader : Rat) ∧
      entry.loss = sumLoss sampleEnv sampleLoader
        / (sampleLoader.length : Rat)) ∧
    (∃ entry, evaluate sampleEnv sampleLoader 0 = Except.ok entry ∧
      entry.accuracy = sumCorrect sampleEnv sampleLoader
        / (sumTotal sampleEnv sampleLoader : Rat) ∧
      entry.loss = sumLoss sampleEnv sampleLoader
        / (sampleLoader.length : Rat)) ∧
    (∃ entry, test sampleEnv sampleLoader = Except.ok entry ∧
      entry.accuracy = sumCorrect sampleEnv sampleLoader
        / (sumTotal sampleEnv sampleLoader : Rat) ∧
      entry.loss = sumLoss sampleEnv sampleLoader
        / (sampleLoader.length : Rat)) :=
  C5_metrics sampleEnv (Or.inr (Or.inr rfl)) sampleLoader (by decide) 0

theorem C6_witness :
    train badEnv sampleLoader 0
      = (Except.error ("Task: " ++ badEnv.task ++ " not found."), 0) ∧
    evaluate badEnv sampleLoader 0
      = Except.error ("Task: " ++ badEnv.task ++ " not found.") ∧
    test badEnv sampleLoader
      = Except.error ("Task: " ++ badEnv.task ++ " not found.") :=
  C6_unknown_task badEnv (by decide) sampleLoader (by decide) 0

theorem C9_witness :
    (∃ entry steps, train sampleEnv sampleLoader 5 = (Except.ok entry, steps) ∧
      entry.current_epoch_nr = 5 ∧ entry.metric_type = "train") ∧
    (∃ entry, evaluate sampleEnv sampleLoader 5 = Except.ok entry ∧
      entry.current_epoch_nr = 5 ∧ entry.metric_type = "val") ∧
    (∃ entry, test sampleEnv sampleLoader = Except.ok entry ∧
      entry.current_epoch_nr = -1 ∧ entry.metric_type = "test") :=
  C9_epoch_tags sampleEnv (Or.inr (Or.inr rfl)) sampleLoader 5

/-- A one-record collate batch whose `len` field matches its sequence
length. -/
def sampleBatch : List (List Int × Int × Nat × Nat) := [([3, 4], 7, 2, 1)]

theorem C4_witness :
    ∃ xx yy lengths bins,
      concater_collate sampleBatch = some (xx, yy, lengths, bins) ∧
      xx = (sampleBatch.map (fun p => p.1)).flatten ∧
      yy = sampleBatch.map (fun p => p.2.1) ∧
      lengths = sampleBatch.map (fun p => p.2.2.1) ∧
      bins = sampleBatch.map (fun p => p.2.2.2) ∧
      lengths.length = sampleBatch.length ∧
      bins.length = sampleBatch.length ∧
      xx.length = lengths.sum :=
  C4_collate sampleBatch (by decide) (by decide)
